import Mathlib

/-!
Verification of the i3blocks scheduler (`sched.c`).

The scheduler is a single-threaded reactor multiplexing a coalesced
interval timer, child-process I/O and OS signals.  We embed the
scheduler shallowly: pure computations (`longest_sleep`, the signal-set
construction, dispatch) become Lean functions; the `select`-driven loop
of `sched_start` becomes a step function over an explicit wait-set state
driven by a trace of environment inputs (what the kernel reports for
each `select` call and each `read` of the signalfd); effects on the
external collaborators (`json_print_bar`, `bar_poll_*`,
`block_read_std`, logging, `waitpid`) are recorded as an event list.
-/

set_option maxHeartbeats 1000000

namespace Sched

/-! ### Signal numbers

Numeric values of the signal constants used by `sched.c`, from the
(Linux) C library headers.  Only the click signal's name is adjusted
(`SIGIOn` for `SIGIO`). -/

def SIGINT : Nat := 2
def SIGUSR1 : Nat := 10
def SIGUSR2 : Nat := 12
def SIGALRM : Nat := 14
def SIGTERM : Nat := 15
def SIGCHLD : Nat := 17
def SIGIOn : Nat := 29

/-- Modelled from the spec: sentinel interval (defined in `block.h`, not
under `src/`) marking a block as "keep running continuously and stream
output".  Only its equality/sign behaviour matters: it is not a positive
interval, so `longest_sleep` skips it and the wait set includes the
block's descriptors. -/
def INTER_BLOCKING : Int := -1

/-- Modelled from the spec: readiness flag for a readable stdout
descriptor (defined in `block.h`, not under `src/`); a nonzero bit flag
distinct from `READY_STDERR`. -/
def READY_STDOUT : Nat := 1

/-- Modelled from the spec: readiness flag for a readable stderr
descriptor (defined in `block.h`, not under `src/`); a nonzero bit flag
distinct from `READY_STDOUT`. -/
def READY_STDERR : Nat := 2

/-- One block of the bar, as read by the scheduler: its configured
refresh interval and its stdout/stderr descriptors (`struct block`
fields used by `sched.c`). -/
structure Block where
  interval : Int
  out : Nat
  err : Nat
deriving DecidableEq, Repr

/-! ### Interval reducer: `longest_sleep` -/

/-- The nested `gcd` helper of `longest_sleep` (sched.c:56-61): Euclid's
algorithm by repeated remainder; the xor-exchange of the C source is a
plain swap of the two variables. -/
def gcd_c (a b : Nat) : Nat :=
  if h : b = 0 then a else gcd_c b (a % b)
termination_by b
decreasing_by exact Nat.mod_lt a (Nat.pos_of_ne_zero h)

/-- `longest_sleep` (sched.c:50-74): seed with the first block's
interval when positive, return early for fewer than two blocks, then
fold the gcd over the remaining blocks' positive intervals. -/
def longest_sleep (blocks : List Block) : Nat :=
  let time : Nat :=
    match blocks with
    | [] => 0
    | b :: _ => if 0 < b.interval then b.interval.toNat else 0
  if blocks.length < 2 then time
  else (blocks.drop 1).foldl
    (fun t b => if 0 < b.interval then gcd_c t b.interval.toNat else t) time

theorem gcd_c_eq_gcd (a b : Nat) : gcd_c a b = Nat.gcd a b := by
  induction b using Nat.strong_induction_on generalizing a with
  | _ b ih =>
    rw [gcd_c]
    split
    · rename_i h; subst h; simp [Nat.gcd_zero_right]
    · rename_i h
      rw [ih (a % b) (Nat.mod_lt a (Nat.pos_of_ne_zero h))]
      rw [Nat.gcd_comm b (a % b), ← Nat.gcd_rec b a, Nat.gcd_comm b a]

/-- The positive intervals of the bar, as naturals. -/
def posIntervals (blocks : List Block) : List Nat :=
  blocks.filterMap (fun b => if 0 < b.interval then some b.interval.toNat else none)

theorem foldl_gcd_c_eq (l : List Block) (a : Nat) :
    l.foldl (fun t b => if 0 < b.interval then gcd_c t b.interval.toNat else t) a
      = (posIntervals l).foldl Nat.gcd a := by
  induction l generalizing a with
  | nil => rfl
  | cons b t ih =>
    rw [List.foldl_cons, ih]
    by_cases h : 0 < b.interval
    · simp [posIntervals, h, gcd_c_eq_gcd]
    · simp [posIntervals, h]

theorem longest_sleep_eq (blocks : List Block) :
    longest_sleep blocks = (posIntervals blocks).foldl Nat.gcd 0 := by
  cases blocks with
  | nil => rfl
  | cons b t =>
    have hstep : longest_sleep (b :: t)
        = t.foldl (fun x c => if 0 < c.interval then gcd_c x c.interval.toNat else x)
            (if 0 < b.interval then b.interval.toNat else 0) := by
      cases t with
      | nil => rfl
      | cons c u =>
        have hn : ¬ ((b :: c :: u).length < 2) := by
          simp only [List.length_cons]; omega
        simp only [longest_sleep, if_neg hn, List.drop_succ_cons, List.drop_zero]
    rw [hstep, foldl_gcd_c_eq]
    by_cases h : 0 < b.interval
    · simp [posIntervals, h, Nat.gcd_zero_left]
    · simp [posIntervals, h]

theorem foldl_gcd_dvd (l : List Nat) (a : Nat) :
    (l.foldl Nat.gcd a ∣ a) ∧ ∀ x ∈ l, l.foldl Nat.gcd a ∣ x := by
  induction l generalizing a with
  | nil => simp
  | cons x t ih =>
    obtain ⟨h1, h2⟩ := ih (Nat.gcd a x)
    refine ⟨(Nat.dvd_trans h1 (Nat.gcd_dvd_left a x)), ?_⟩
    intro y hy
    rcases List.mem_cons.mp hy with rfl | hy
    · exact Nat.dvd_trans h1 (Nat.gcd_dvd_right a y)
    · exact h2 y hy

theorem dvd_foldl_gcd (l : List Nat) (a d : Nat) (ha : d ∣ a)
    (h : ∀ x ∈ l, d ∣ x) : d ∣ l.foldl Nat.gcd a := by
  induction l generalizing a with
  | nil => exact ha
  | cons x t ih =>
    exact ih (Nat.gcd a x) (Nat.dvd_gcd ha (h x (List.mem_cons_self x t)))
      (fun y hy => h y (List.mem_cons_of_mem x hy))

theorem mem_posIntervals {blocks : List Block} {x : Nat} :
    x ∈ posIntervals blocks ↔ ∃ b ∈ blocks, 0 < b.interval ∧ x = b.interval.toNat := by
  simp only [posIntervals, List.mem_filterMap]
  constructor
  · rintro ⟨b, hb, hx⟩
    by_cases h : 0 < b.interval
    · rw [if_pos h] at hx
      exact ⟨b, hb, h, (Option.some_injective _ hx).symm⟩
    · rw [if_neg h] at hx; exact absurd hx (by simp)
  · rintro ⟨b, hb, h, rfl⟩
    exact ⟨b, hb, by rw [if_pos h]⟩

theorem int_dvd_of_dvd_toNat {d : Nat} {i : Int} (hpos : 0 < i)
    (hd : d ∣ i.toNat) : (d : Int) ∣ i := by
  have : i = ((i.toNat : Nat) : Int) := (Int.toNat_of_nonneg (le_of_lt hpos)).symm
  rw [this]
  exact Int.natCast_dvd_natCast.mpr hd

theorem dvd_toNat_of_int_dvd {d : Nat} {i : Int} (hpos : 0 < i)
    (hd : (d : Int) ∣ i) : d ∣ i.toNat := by
  have : i = ((i.toNat : Nat) : Int) := (Int.toNat_of_nonneg (le_of_lt hpos)).symm
  rw [this] at hd
  exact Int.natCast_dvd_natCast.mp hd

/-- C1: `longest_sleep` returns the greatest common divisor of all
strictly-positive block intervals — it evenly divides every positive
interval, every common divisor of the positive intervals divides it
(hence no larger value divides them all), and it is 0 exactly when no
block has a strictly positive interval (zero and sentinel intervals are
skipped). -/
theorem longest_sleep_gcd (blocks : List Block) :
    (∀ b ∈ blocks, 0 < b.interval → (longest_sleep blocks : Int) ∣ b.interval)
    ∧ (∀ d : Nat, (∀ b ∈ blocks, 0 < b.interval → (d : Int) ∣ b.interval) →
        d ∣ longest_sleep blocks)
    ∧ ((∀ b ∈ blocks, b.interval ≤ 0) → longest_sleep blocks = 0)
    ∧ ((∃ b ∈ blocks, 0 < b.interval) →
        0 < longest_sleep blocks ∧
        ∀ d : Nat, longest_sleep blocks < d →
          ¬ (∀ b ∈ blocks, 0 < b.interval → (d : Int) ∣ b.interval)) := by
  rw [longest_sleep_eq]
  have hdvd := foldl_gcd_dvd (posIntervals blocks) 0
  refine ⟨?_, ?_, ?_, ?_⟩
  · intro b hb hpos
    exact int_dvd_of_dvd_toNat hpos
      (hdvd.2 b.interval.toNat (mem_posIntervals.mpr ⟨b, hb, hpos, rfl⟩))
  · intro d hd
    refine dvd_foldl_gcd _ 0 d (Nat.dvd_zero d) ?_
    intro x hx
    obtain ⟨b, hb, hpos, rfl⟩ := mem_posIntervals.mp hx
    exact dvd_toNat_of_int_dvd hpos (hd b hb hpos)
  · intro h
    have : posIntervals blocks = [] := by
      simp only [posIntervals, List.filterMap_eq_nil]
      intro b hb
      rw [if_neg (by exact fun hc => absurd (h b hb) (not_le.mpr hc))]
    rw [this]; rfl
  · rintro ⟨b, hb, hpos⟩
    have hx : b.interval.toNat ∈ posIntervals blocks :=
      mem_posIntervals.mpr ⟨b, hb, hpos, rfl⟩
    have hxpos : 0 < b.interval.toNat := by omega
    have hgpos : 0 < (posIntervals blocks).foldl Nat.gcd 0 := by
      rcases Nat.eq_zero_or_pos ((posIntervals blocks).foldl Nat.gcd 0) with h0 | h
      · have := hdvd.2 b.interval.toNat hx
        rw [h0] at this
        exact absurd (Nat.eq_zero_of_zero_dvd this) (Nat.pos_iff_ne_zero.mp hxpos)
      · exact h
    refine ⟨hgpos, ?_⟩
    intro d hlt hall
    have hd : d ∣ (posIntervals blocks).foldl Nat.gcd 0 := by
      refine dvd_foldl_gcd _ 0 d (Nat.dvd_zero d) ?_
      intro x hx'
      obtain ⟨c, hc, hcp, rfl⟩ := mem_posIntervals.mp hx'
      exact dvd_toNat_of_int_dvd hcp (hall c hc hcp)
    exact absurd (Nat.le_of_dvd hgpos hd) (not_le.mpr hlt)

/-- Witness for C1 at the bar with intervals 4 and 6 (gcd 2). -/
theorem longest_sleep_gcd_witness :
    (longest_sleep [⟨4, 10, 11⟩, ⟨6, 12, 13⟩] : Int) ∣ 4
    ∧ 0 < longest_sleep [⟨4, 10, 11⟩, ⟨6, 12, 13⟩] := by
  constructor
  · exact (longest_sleep_gcd [⟨4, 10, 11⟩, ⟨6, 12, 13⟩]).1 ⟨4, 10, 11⟩
      (by simp) (by decide)
  · exact ((longest_sleep_gcd [⟨4, 10, 11⟩, ⟨6, 12, 13⟩]).2.2.2
      ⟨⟨4, 10, 11⟩, by simp, by decide⟩).1

/-! ### Timer setup: `setup_timer` -/

/-- The `struct itimerval` seconds fields armed by `setup_timer`
(sched.c:86-89): initial expiry (`it_value.tv_sec`) and repeat period
(`it_interval.tv_sec`). -/
structure ITimerVal where
  itValueSec : Nat
  itIntervalSec : Nat
deriving DecidableEq, Repr

/-- `setup_timer` (sched.c:76-98): compute the reducer output; when it
is 0, arm no timer; otherwise arm a periodic timer with both fields
equal to the reducer output via `setitimer` (whose success is an
environment input `timerOk`). `.ok none` means success with no timer
armed. -/
def setup_timer (timerOk : Bool) (blocks : List Block) :
    Except String (Option ITimerVal) :=
  let sleeptime := longest_sleep blocks
  if sleeptime = 0 then .ok none
  else if timerOk then .ok (some ⟨sleeptime, sleeptime⟩)
  else .error "setitimer"

/-- C8: `setup_timer` arms no timer when the reducer output is 0, and
otherwise arms a periodic timer whose initial expiry delay and repeat
period both equal the reducer output (first fire after one full period,
no initial burst). -/
theorem setup_timer_spec (timerOk : Bool) (blocks : List Block) :
    (longest_sleep blocks = 0 → setup_timer timerOk blocks = .ok none)
    ∧ (0 < longest_sleep blocks → timerOk = true →
        setup_timer timerOk blocks
          = .ok (some ⟨longest_sleep blocks, longest_sleep blocks⟩))
    ∧ (∀ itv, setup_timer timerOk blocks = .ok (some itv) →
        itv.itValueSec = longest_sleep blocks
        ∧ itv.itIntervalSec = longest_sleep blocks) := by
  refine ⟨?_, ?_, ?_⟩
  · intro h; simp [setup_timer, h]
  · intro h ht
    rw [setup_timer]
    simp only [if_neg (Nat.pos_iff_ne_zero.mp h), ht, if_pos]
  · intro itv h
    rw [setup_timer] at h
    by_cases h0 : longest_sleep blocks = 0
    · rw [if_pos h0] at h; exact absurd h (by simp)
    · rw [if_neg h0] at h
      cases ht : timerOk with
      | false => rw [ht] at h; exact absurd h (by simp)
      | true =>
        rw [ht, if_pos rfl] at h
        have := Except.ok.inj h
        have := Option.some_injective _ this
        rw [← this]
        exact ⟨rfl, rfl⟩

/-- Witness for C8: no timer for an empty bar; a periodic 5-second
timer for a single block of interval 5. -/
theorem setup_timer_spec_witness :
    setup_timer true [] = .ok none
    ∧ setup_timer true [⟨5, 10, 11⟩]
        = .ok (some ⟨longest_sleep [⟨5, 10, 11⟩], longest_sleep [⟨5, 10, 11⟩]⟩) :=
  ⟨(setup_timer_spec true []).1 rfl,
   (setup_timer_spec true [⟨5, 10, 11⟩]).2.1 (by decide) rfl⟩

/-! ### Signal gate: `setup_signals` -/

/-- Environment for `setup_signals`: which `sigaddset` calls succeed,
and whether `signalfd` and `sigprocmask` succeed. -/
structure SigEnv where
  addOk : Nat → Bool
  fdOk : Bool
  maskOk : Bool

/-- The signals added to the set by `setup_signals`, in source order
(sched.c:112-132): SIGTERM, SIGINT, SIGALRM, SIGCHLD, SIGUSR1, SIGUSR2,
SIGIO, then every real-time signal from SIGRTMIN+1 up to SIGRTMAX. -/
def sigListOf (rtmin rtmax : Nat) : List Nat :=
  [SIGTERM, SIGINT, SIGALRM, SIGCHLD, SIGUSR1, SIGUSR2, SIGIOn]
    ++ List.range' (rtmin + 1) (rtmax - rtmin)

/-- The sequence of `ADD_SIG` invocations: add each signal in turn,
failing as soon as one `sigaddset` fails. -/
def add_sigs (env : SigEnv) : List Nat → Finset Nat → Except String (Finset Nat)
  | [], s => .ok s
  | sig :: rest, s =>
    if env.addOk sig then add_sigs env rest (insert sig s)
    else .error "sigaddset"

/-- Result of a successful `setup_signals`: the built signal set, and
whether it has been blocked from asynchronous delivery
(`sigprocmask(SIG_SETMASK, ...)`). -/
structure GateResult where
  sigset : Finset Nat
  blocked : Bool
deriving DecidableEq

/-- `setup_signals` (sched.c:100-150): build the signal set, create the
signalfd for it, then block the set; any failing step aborts with an
error. -/
def setup_signals (rtmin rtmax : Nat) (env : SigEnv) :
    Except String GateResult :=
  match add_sigs env (sigListOf rtmin rtmax) ∅ with
  | .error e => .error e
  | .ok s =>
    if env.fdOk then
      if env.maskOk then .ok ⟨s, true⟩ else .error "sigprocmask"
    else .error "signalfd"

theorem add_sigs_ok (env : SigEnv) (l : List Nat) (s0 : Finset Nat) :
    (∀ sig ∈ l, env.addOk sig = true) →
      ∃ s, add_sigs env l s0 = .ok s ∧ ∀ x, (x ∈ s ↔ x ∈ s0 ∨ x ∈ l) := by
  induction l generalizing s0 with
  | nil => intro _; exact ⟨s0, rfl, by simp⟩
  | cons a t ih =>
    intro h
    obtain ⟨s, hs, hmem⟩ := ih (insert a s0) (fun x hx => h x (List.mem_cons_of_mem a hx))
    refine ⟨s, ?_, ?_⟩
    · rw [add_sigs, if_pos (h a (List.mem_cons_self a t))]; exact hs
    · intro x
      rw [hmem x, Finset.mem_insert, List.mem_cons]
      tauto

theorem add_sigs_ok_inv (env : SigEnv) (l : List Nat) :
    ∀ s0 s, add_sigs env l s0 = .ok s →
      (∀ sig ∈ l, env.addOk sig = true) ∧ ∀ x, (x ∈ s ↔ x ∈ s0 ∨ x ∈ l) := by
  induction l with
  | nil =>
    intro s0 s h
    have : s0 = s := Except.ok.inj h
    subst this
    exact ⟨by simp, by simp⟩
  | cons a t ih =>
    intro s0 s h
    rw [add_sigs] at h
    by_cases ha : env.addOk a = true
    · rw [if_pos ha] at h
      obtain ⟨hall, hmem⟩ := ih (insert a s0) s h
      refine ⟨?_, ?_⟩
      · intro sig hsig
        rcases List.mem_cons.mp hsig with rfl | hsig
        · exact ha
        · exact hall sig hsig
      · intro x
        rw [hmem x, Finset.mem_insert, List.mem_cons]
        tauto
    · rw [if_neg ha] at h
      exact absurd h (by simp)

theorem add_sigs_err (env : SigEnv) (l : List Nat) (s0 : Finset Nat) :
    (∃ sig ∈ l, env.addOk sig = false) →
      ∃ e, add_sigs env l s0 = .error e := by
  induction l generalizing s0 with
  | nil => rintro ⟨sig, h, -⟩; exact absurd h (by simp)
  | cons a t ih =>
    rintro ⟨sig, hmem, hbad⟩
    rcases List.mem_cons.mp hmem with rfl | hmem
    · exact ⟨"sigaddset", by rw [add_sigs, if_neg (by rw [hbad]; simp)]⟩
    · by_cases ha : env.addOk a = true
      · obtain ⟨e, he⟩ := ih (insert a s0) ⟨sig, hmem, hbad⟩
        exact ⟨e, by rw [add_sigs, if_pos ha]; exact he⟩
      · exact ⟨"sigaddset", by rw [add_sigs, if_neg ha]⟩

theorem mem_sigListOf (rtmin rtmax s : Nat) (hr : rtmin ≤ rtmax) :
    s ∈ sigListOf rtmin rtmax ↔
      s = SIGTERM ∨ s = SIGINT ∨ s = SIGALRM ∨ s = SIGCHLD ∨ s = SIGUSR1
      ∨ s = SIGUSR2 ∨ s = SIGIOn ∨ (rtmin < s ∧ s ≤ rtmax) := by
  have hiff : (rtmin + 1 ≤ s ∧ s < rtmin + 1 + (rtmax - rtmin))
      ↔ (rtmin < s ∧ s ≤ rtmax) := by omega
  simp only [sigListOf, List.mem_append, List.mem_cons, List.not_mem_nil,
    or_false, List.mem_range'_1, hiff]
  tauto

/-- `sched_init` (sched.c:173-188): set up signals, then the timer,
then (when stdin is not a tty) async event I/O for stdin; each failure
aborts initialization before the reactor loop can run. -/
def sched_init (rtmin rtmax : Nat) (env : SigEnv) (timerOk eventioOk stdinTty : Bool)
    (blocks : List Block) : Except String GateResult :=
  match setup_signals rtmin rtmax env with
  | .error e => .error e
  | .ok g =>
    match setup_timer timerOk blocks with
    | .error e => .error e
    | .ok _ =>
      if stdinTty then .ok g
      else if eventioOk then .ok g else .error "eventio"

/-- C7: `setup_signals` builds a signal set containing exactly SIGTERM,
SIGINT, SIGALRM, SIGCHLD, SIGIO, SIGUSR1, SIGUSR2 and every real-time
signal strictly above SIGRTMIN up to SIGRTMAX; on success the set is
blocked from asynchronous delivery (after creating the signalfd), it
succeeds exactly when every `sigaddset`, the `signalfd` creation and the
`sigprocmask` succeed, and any failure makes `sched_init` fail. -/
theorem setup_signals_spec (rtmin rtmax : Nat) (env : SigEnv)
    (hr : rtmin ≤ rtmax) :
    (∀ g, setup_signals rtmin rtmax env = .ok g →
       g.blocked = true ∧
       ∀ s, s ∈ g.sigset ↔
         (s = SIGTERM ∨ s = SIGINT ∨ s = SIGALRM ∨ s = SIGCHLD ∨ s = SIGUSR1
          ∨ s = SIGUSR2 ∨ s = SIGIOn ∨ (rtmin < s ∧ s ≤ rtmax)))
    ∧ ((∃ g, setup_signals rtmin rtmax env = .ok g) ↔
        ((∀ s ∈ sigListOf rtmin rtmax, env.addOk s = true)
         ∧ env.fdOk = true ∧ env.maskOk = true))
    ∧ (∀ e, setup_signals rtmin rtmax env = .error e →
        ∀ timerOk eventioOk stdinTty blocks,
          sched_init rtmin rtmax env timerOk eventioOk stdinTty blocks
            = .error e) := by
  refine ⟨?_, ⟨?_, ?_⟩, ?_⟩
  · intro g hg
    cases heq : add_sigs env (sigListOf rtmin rtmax) ∅ with
    | error e => simp [setup_signals, heq] at hg
    | ok s =>
      simp only [setup_signals, heq] at hg
      by_cases hfd : env.fdOk = true
      · rw [if_pos hfd] at hg
        by_cases hmask : env.maskOk = true
        · rw [if_pos hmask] at hg
          have hgs : ({ sigset := s, blocked := true } : GateResult) = g :=
            Except.ok.inj hg
          obtain ⟨-, hmem⟩ := add_sigs_ok_inv env (sigListOf rtmin rtmax) ∅ s heq
          subst hgs
          refine ⟨rfl, ?_⟩
          intro x
          rw [show ({ sigset := s, blocked := true } : GateResult).sigset = s from rfl,
            hmem x, ← mem_sigListOf rtmin rtmax x hr]
          simp
        · rw [if_neg hmask] at hg; exact absurd hg (by simp)
      · rw [if_neg hfd] at hg; exact absurd hg (by simp)
  · rintro ⟨g, hg⟩
    cases heq : add_sigs env (sigListOf rtmin rtmax) ∅ with
    | error e => simp [setup_signals, heq] at hg
    | ok s =>
      simp only [setup_signals, heq] at hg
      obtain ⟨hall, -⟩ := add_sigs_ok_inv env (sigListOf rtmin rtmax) ∅ s heq
      by_cases hfd : env.fdOk = true
      · by_cases hmask : env.maskOk = true
        · exact ⟨hall, hfd, hmask⟩
        · rw [if_pos hfd, if_neg hmask] at hg; exact absurd hg (by simp)
      · rw [if_neg hfd] at hg; exact absurd hg (by simp)
  · rintro ⟨hall, hfd, hmask⟩
    obtain ⟨s, hs, -⟩ := add_sigs_ok env (sigListOf rtmin rtmax) ∅ hall
    exact ⟨⟨s, true⟩, by simp [setup_signals, hs, hfd, hmask]⟩
  · intro e he timerOk eventioOk stdinTty blocks
    rw [sched_init, he]

/-- Witness for C7 with the Linux real-time range 34..64: success with
an all-succeeding environment, failure propagation to `sched_init` when
`sigaddset` fails. -/
theorem setup_signals_spec_witness :
    (∃ g, setup_signals 34 64 ⟨fun _ => true, true, true⟩ = .ok g)
    ∧ sched_init 34 64 ⟨fun _ => false, true, true⟩ true true true []
        = .error "sigaddset" :=
  ⟨((setup_signals_spec 34 64 ⟨fun _ => true, true, true⟩ (by decide)).2.1).mpr
      ⟨fun s _ => rfl, rfl, rfl⟩,
   (setup_signals_spec 34 64 ⟨fun _ => false, true, true⟩ (by decide)).2.2
      "sigaddset" rfl true true true []⟩

/-! ### The event reactor: `sched_start`

The loop body of `sched_start` is embedded as a step function over the
wait set, driven by a trace of environment inputs (one per `select`
call); the calls it makes to the external collaborators are recorded as
an event list. -/

/-- Observable effects of the reactor on its external collaborators:
renders (`json_print_bar`), the `bar_poll_*` notifications,
`block_read_std` calls (block index, eof flag, readiness bits), block
diagnostics (`berror`), error and debug logging, `sigprocmask`
unblocking and successful `waitpid` calls. -/
inductive Ev where
  | render
  | pollTimed
  | pollOutdated
  | pollExited
  | pollClicked
  | pollSignaled (idx : Nat)
  | readStd (idx : Nat) (eof : Bool) (ready : Nat)
  | berror (idx : Nat)
  | errorLog (msg : String)
  | debugUnhandled (sig : Nat)
  | unblockSignals
  | reapChild
deriving DecidableEq, Repr

/-- What one `read(sigfd, ...)` yields: a full `signalfd_siginfo`
record carrying signal `sig`, or an incomplete read. -/
inductive SigRead where
  | short
  | full (sig : Nat)
deriving DecidableEq, Repr

/-- Environment input for one iteration of the reactor loop: the return
value of `select`, whether a failing `select` set `errno` to `EINTR`,
the contents of the `rfds_read` and `rfds_exc` buffers as left by the
kernel when `select` returns, and the result of reading the signalfd if
the iteration gets there. -/
structure SelInput where
  ret : Int
  eintr : Bool
  readSet : Finset Nat
  excSet : Finset Nat
  sigRead : SigRead
deriving DecidableEq

/-- Why the reactor loop was left: termination signal, short signalfd
read, or a zero-ready `select` result. -/
inductive ExitReason where
  | term
  | shortRead
  | zeroReady
deriving DecidableEq, Repr

/-- Static configuration of the reactor: the signalfd descriptor and
the platform real-time signal range. -/
structure Cfg where
  sigfd : Nat
  rtmin : Nat
  rtmax : Nat
deriving DecidableEq, Repr

/-- The readiness bits of one block's descriptors in `rfds_read`
(sched.c:310-311). -/
def block_ready (readSet : Finset Nat) (b : Block) : Nat :=
  (if b.out ∈ readSet then READY_STDOUT else 0)
    ||| (if b.err ∈ readSet then READY_STDERR else 0)

/-- The data sweep over the blocks (sched.c:306-317): for each
INTER_BLOCKING block with a readable descriptor, consume its data
(`block_read_std(block, 0, ready)`) and mark the bar updated; `i` is
the bar index of the first block of the list, `acc` the events emitted
so far and the `updated` flag. -/
def sweep_go (readSet : Finset Nat) :
    List Block → Nat → List Ev × Bool → List Ev × Bool
  | [], _, acc => acc
  | b :: rest, i, acc =>
    if b.interval = INTER_BLOCKING then
      if block_ready readSet b ≠ 0 then
        sweep_go readSet rest (i + 1)
          (acc.1 ++ [Ev.readStd i false (block_ready readSet b)], true)
      else sweep_go readSet rest (i + 1) acc
    else sweep_go readSet rest (i + 1) acc

/-- The data sweep plus the trailing render when any block produced
data (sched.c:306-319). -/
def data_sweep (blocks : List Block) (readSet : Finset Nat) : List Ev :=
  let r := sweep_go readSet blocks 0 ([], false)
  if r.2 then r.1 ++ [Ev.render] else r.1

/-- Whether `select` reported an exceptional condition on one of the
block's descriptors (sched.c:249). -/
def excHit (excSet : Finset Nat) (b : Block) : Prop :=
  b.interval = INTER_BLOCKING ∧ (b.out ∈ excSet ∨ b.err ∈ excSet)

instance (excSet : Finset Nat) (b : Block) : Decidable (excHit excSet b) := by
  unfold excHit; infer_instance

/-- The per-block handling of a failed `select` (sched.c:244-256): for
each INTER_BLOCKING block with an excepted descriptor, report the
broken stream, remove both its descriptors from the wait set, and
finalize its stream at end-of-file (`block_read_std(block, 1, 0)`). -/
def exc_sweep_go (excSet : Finset Nat) :
    List Block → Nat → List Ev × Finset Nat → List Ev × Finset Nat
  | [], _, acc => acc
  | b :: rest, i, acc =>
    if excHit excSet b then
      exc_sweep_go excSet rest (i + 1)
        (acc.1 ++ [Ev.berror i, Ev.readStd i true 0],
         (acc.2.erase b.out).erase b.err)
    else exc_sweep_go excSet rest (i + 1) acc

/-- Signal dispatch (sched.c:276-300): the events emitted for one
signal record, and whether the loop breaks (termination request). -/
def dispatch_sig (cfg : Cfg) (s : Nat) : List Ev × Bool :=
  if s = SIGTERM ∨ s = SIGINT then ([], true)
  else if s = SIGALRM then ([Ev.pollOutdated], false)
  else if s = SIGCHLD then ([Ev.pollExited, Ev.render], false)
  else if s = SIGIOn then ([Ev.pollClicked], false)
  else if cfg.rtmin < s ∧ s ≤ cfg.rtmax then
    ([Ev.pollSignaled (s - cfg.rtmin)], false)
  else if s = SIGUSR1 ∨ s = SIGUSR2 then
    ([Ev.errorLog "SIGUSR\x7b1,2\x7d are deprecated, ignoring."], false)
  else ([Ev.debugUnhandled s], false)

/-- The tail of one loop iteration after the `select` result has been
handled (sched.c:263-319): check the signalfd, read and dispatch one
signal record (a short read or a termination signal breaks the loop),
then — unless no actionable descriptors remain — sweep the blocks for
readable data.  `avail` is `avail_fds` on entry, `evs0` the events
already emitted this iteration. -/
def after_select (cfg : Cfg) (blocks : List Block) (rfds : Finset Nat)
    (inp : SelInput) (avail : Int) (evs0 : List Ev) :
    List Ev × Finset Nat × Option ExitReason :=
  if cfg.sigfd ∈ inp.readSet then
    match inp.sigRead with
    | .short => (evs0 ++ [Ev.errorLog "read"], rfds, some .shortRead)
    | .full s =>
      let d := dispatch_sig cfg s
      if d.2 then (evs0 ++ d.1, rfds, some .term)
      else if avail - 1 = 0 then (evs0 ++ d.1, rfds, none)
      else (evs0 ++ d.1 ++ data_sweep blocks inp.readSet, rfds, none)
  else
    if avail = 0 then (evs0, rfds, none)
    else (evs0 ++ data_sweep blocks inp.readSet, rfds, none)

/-- One iteration of the reactor loop (sched.c:231-320): an interrupted
`select` retries, a failed `select` runs the exception sweep and then
falls through, a zero-ready `select` is fatal, and otherwise the
iteration proceeds to signal dispatch and the data sweep. -/
def step (cfg : Cfg) (blocks : List Block) (rfds : Finset Nat) (inp : SelInput) :
    List Ev × Finset Nat × Option ExitReason :=
  if inp.ret = -1 then
    if inp.eintr then ([], rfds, none)
    else
      let r := exc_sweep_go inp.excSet blocks 0 ([Ev.errorLog "select"], rfds)
      after_select cfg blocks r.2 inp (-1) r.1
  else if inp.ret = 0 then
    ([Ev.errorLog "should not happen: select returned 0 (timeout)"],
     rfds, some .zeroReady)
  else after_select cfg blocks rfds inp inp.ret []

/-- The reactor loop run on a finite trace of environment inputs:
the emitted events, the final wait set, and the exit reason (`none`
when the trace is exhausted with the loop still running). -/
def run (cfg : Cfg) (blocks : List Block) :
    Finset Nat → List SelInput → List Ev × Finset Nat × Option ExitReason
  | rfds, [] => ([], rfds, none)
  | rfds, inp :: rest =>
    let r := step cfg blocks rfds inp
    match r.2.2 with
    | some e => (r.1, r.2.1, some e)
    | none =>
      let r2 := run cfg blocks r.2.1 rest
      (r.1 ++ r2.1, r2.2.1, r2.2.2)

/-- The wait set built once before the loop (sched.c:205-229): the
signalfd plus the out and err descriptors of every INTER_BLOCKING
block. -/
def initWaitSet (cfg : Cfg) (blocks : List Block) : Finset Nat :=
  blocks.foldl
    (fun s b =>
      if b.interval = INTER_BLOCKING then insert b.err (insert b.out s) else s)
    {cfg.sigfd}

/-- The shutdown reaping loop (sched.c:328-329): `waitpid(-1, NULL, 0)`
succeeds once per outstanding child and is retried until it reports
that no child remains. -/
def reap_loop : Nat → List Ev
  | 0 => []
  | n + 1 => Ev.reapChild :: reap_loop n

/-- `sched_start` (sched.c:190-332): initial render and first poll, the
wait-set construction, the reactor loop over the trace, and — when the
loop exits — the shutdown sequence unblocking the signal set and then
reaping the `children` outstanding child processes. -/
def sched_start (cfg : Cfg) (blocks : List Block) (trace : List SelInput)
    (children : Nat) : List Ev :=
  let r := run cfg blocks (initWaitSet cfg blocks) trace
  match r.2.2 with
  | some _ =>
      [Ev.render, Ev.pollTimed] ++ r.1 ++ (Ev.unblockSignals :: reap_loop children)
  | none => [Ev.render, Ev.pollTimed] ++ r.1

/-! #### Properties of the data sweep -/

theorem sweep_go_mono (readSet : Finset Nat) (l : List Block) :
    ∀ i acc e, e ∈ acc.1 → e ∈ (sweep_go readSet l i acc).1 := by
  induction l with
  | nil => intro i acc e he; exact he
  | cons b t ih =>
    intro i acc e he
    rw [sweep_go]
    by_cases hb : b.interval = INTER_BLOCKING
    · rw [if_pos hb]
      by_cases hr : block_ready readSet b ≠ 0
      · rw [if_pos hr]
        exact ih (i + 1) _ e (List.mem_append_left _ he)
      · rw [if_neg hr]; exact ih (i + 1) acc e he
    · rw [if_neg hb]; exact ih (i + 1) acc e he

theorem sweep_go_upd (readSet : Finset Nat) (l : List Block) :
    ∀ i (evs : List Ev), (sweep_go readSet l i (evs, true)).2 = true := by
  induction l with
  | nil => intro i evs; rfl
  | cons b t ih =>
    intro i evs
    rw [sweep_go]
    by_cases hb : b.interval = INTER_BLOCKING
    · rw [if_pos hb]
      by_cases hr : block_ready readSet b ≠ 0
      · rw [if_pos hr]; exact ih (i + 1) _
      · rw [if_neg hr]; exact ih (i + 1) evs
    · rw [if_neg hb]; exact ih (i + 1) evs

theorem sweep_go_mem (readSet : Finset Nat) (l : List Block) :
    ∀ k i acc b, l.get? k = some b → b.interval = INTER_BLOCKING →
      block_ready readSet b ≠ 0 →
      Ev.readStd (i + k) false (block_ready readSet b) ∈ (sweep_go readSet l i acc).1
      ∧ (sweep_go readSet l i acc).2 = true := by
  induction l with
  | nil => intro k i acc b hget; exact absurd hget (by simp)
  | cons c t ih =>
    intro k i acc b hget hbl hr
    cases k with
    | zero =>
      have hcb : c = b := Option.some_injective _ hget
      subst hcb
      rw [sweep_go, if_pos hbl, if_pos hr]
      constructor
      · exact sweep_go_mono readSet t (i + 1) _ _
          (List.mem_append_right _ (by simp))
      · exact sweep_go_upd readSet t (i + 1) _
    | succ k' =>
      have hget' : t.get? k' = some b := hget
      rw [sweep_go]
      have harith : i + (k' + 1) = (i + 1) + k' := by omega
      by_cases hb : c.interval = INTER_BLOCKING
      · rw [if_pos hb]
        by_cases hrc : block_ready readSet c ≠ 0
        · rw [if_pos hrc, harith]; exact ih k' (i + 1) _ b hget' hbl hr
        · rw [if_neg hrc, harith]; exact ih k' (i + 1) acc b hget' hbl hr
      · rw [if_neg hb, harith]; exact ih k' (i + 1) acc b hget' hbl hr

theorem sweep_go_no_render (readSet : Finset Nat) (l : List Block) :
    ∀ i acc, Ev.render ∉ acc.1 → Ev.render ∉ (sweep_go readSet l i acc).1 := by
  induction l with
  | nil => intro i acc h; exact h
  | cons b t ih =>
    intro i acc h
    rw [sweep_go]
    by_cases hb : b.interval = INTER_BLOCKING
    · rw [if_pos hb]
      by_cases hr : block_ready readSet b ≠ 0
      · rw [if_pos hr]
        refine ih (i + 1) _ ?_
        intro hmem
        rcases List.mem_append.mp hmem with hmem | hmem
        · exact h hmem
        · simp at hmem
      · rw [if_neg hr]; exact ih (i + 1) acc h
    · rw [if_neg hb]; exact ih (i + 1) acc h

theorem sweep_go_upd_iff (readSet : Finset Nat) (l : List Block) :
    ∀ i (evs : List Ev), (sweep_go readSet l i (evs, false)).2 = true ↔
      ∃ b ∈ l, b.interval = INTER_BLOCKING ∧ block_ready readSet b ≠ 0 := by
  induction l with
  | nil => intro i evs; simp [sweep_go]
  | cons b t ih =>
    intro i evs
    rw [sweep_go]
    by_cases hb : b.interval = INTER_BLOCKING
    · by_cases hr : block_ready readSet b ≠ 0
      · rw [if_pos hb, if_pos hr]
        simp only [sweep_go_upd, true_iff]
        exact ⟨b, List.mem_cons_self b t, hb, hr⟩
      · rw [if_pos hb, if_neg hr]
        rw [ih (i + 1) evs]
        constructor
        · rintro ⟨c, hc, h1, h2⟩; exact ⟨c, List.mem_cons_of_mem b hc, h1, h2⟩
        · rintro ⟨c, hc, h1, h2⟩
          rcases List.mem_cons.mp hc with rfl | hc
          · exact absurd h2 hr
          · exact ⟨c, hc, h1, h2⟩
    · rw [if_neg hb]
      rw [ih (i + 1) evs]
      constructor
      · rintro ⟨c, hc, h1, h2⟩; exact ⟨c, List.mem_cons_of_mem b hc, h1, h2⟩
      · rintro ⟨c, hc, h1, h2⟩
        rcases List.mem_cons.mp hc with rfl | hc
        · exact absurd h1 hb
        · exact ⟨c, hc, h1, h2⟩

theorem data_sweep_render_count (blocks : List Block) (readSet : Finset Nat) :
    List.count Ev.render (data_sweep blocks readSet)
      = (if (sweep_go readSet blocks 0 ([], false)).2 then 1 else 0) := by
  have hno : Ev.render ∉ (sweep_go readSet blocks 0 ([], false)).1 :=
    sweep_go_no_render readSet blocks 0 ([], false) (by simp)
  rw [data_sweep]
  by_cases h : (sweep_go readSet blocks 0 ([], false)).2
  · rw [if_pos h, if_pos h, List.count_append]
    rw [List.count_eq_zero.mpr hno]
    rfl
  · rw [if_neg h, if_neg h]
    exact List.count_eq_zero.mpr hno

/-! #### Properties of the exception sweep -/

theorem exc_sweep_go_mono (excSet : Finset Nat) (l : List Block) :
    ∀ i acc e, e ∈ acc.1 → e ∈ (exc_sweep_go excSet l i acc).1 := by
  induction l with
  | nil => intro i acc e he; exact he
  | cons b t ih =>
    intro i acc e he
    rw [exc_sweep_go]
    by_cases hb : excHit excSet b
    · rw [if_pos hb]
      exact ih (i + 1) _ e (List.mem_append_left _ he)
    · rw [if_neg hb]; exact ih (i + 1) acc e he

theorem exc_sweep_go_subset (excSet : Finset Nat) (l : List Block) :
    ∀ i acc, (exc_sweep_go excSet l i acc).2 ⊆ acc.2 := by
  induction l with
  | nil => intro i acc; exact Finset.Subset.refl _
  | cons b t ih =>
    intro i acc
    rw [exc_sweep_go]
    by_cases hb : excHit excSet b
    · rw [if_pos hb]
      refine Finset.Subset.trans (ih (i + 1) _) ?_
      exact Finset.Subset.trans (Finset.erase_subset _ _) (Finset.erase_subset _ _)
    · rw [if_neg hb]; exact ih (i + 1) acc

theorem exc_sweep_go_hit (excSet : Finset Nat) (l : List Block) :
    ∀ k i acc b, l.get? k = some b → excHit excSet b →
      Ev.berror (i + k) ∈ (exc_sweep_go excSet l i acc).1
      ∧ Ev.readStd (i + k) true 0 ∈ (exc_sweep_go excSet l i acc).1
      ∧ b.out ∉ (exc_sweep_go excSet l i acc).2
      ∧ b.err ∉ (exc_sweep_go excSet l i acc).2 := by
  induction l with
  | nil => intro k i acc b hget; exact absurd hget (by simp)
  | cons c t ih =>
    intro k i acc b hget hhit
    cases k with
    | zero =>
      have hcb : c = b := Option.some_injective _ hget
      subst hcb
      rw [exc_sweep_go, if_pos hhit]
      have hout : c.out ∉ ((acc.2.erase c.out).erase c.err) := by
        intro h
        exact absurd (Finset.mem_of_mem_erase h)
          (Finset.not_mem_erase c.out acc.2)
      have herr : c.err ∉ ((acc.2.erase c.out).erase c.err) :=
        Finset.not_mem_erase c.err _
      refine ⟨?_, ?_, ?_, ?_⟩
      · exact exc_sweep_go_mono excSet t (i + 1) _ _
          (List.mem_append_right _ (by simp))
      · exact exc_sweep_go_mono excSet t (i + 1) _ _
          (List.mem_append_right _ (by simp))
      · intro h; exact hout (exc_sweep_go_subset excSet t (i + 1) _ h)
      · intro h; exact herr (exc_sweep_go_subset excSet t (i + 1) _ h)
    | succ k' =>
      have hget' : t.get? k' = some b := hget
      rw [exc_sweep_go]
      have harith : i + (k' + 1) = (i + 1) + k' := by omega
      by_cases hc : excHit excSet c
      · rw [if_pos hc, harith]; exact ih k' (i + 1) _ b hget' hhit
      · rw [if_neg hc, harith]; exact ih k' (i + 1) acc b hget' hhit

theorem exc_sweep_go_no_berror (excSet : Finset Nat) (l : List Block) :
    ∀ i acc j, Ev.berror j ∉ acc.1 →
      (∀ k c, l.get? k = some c → excHit excSet c → i + k ≠ j) →
      Ev.berror j ∉ (exc_sweep_go excSet l i acc).1 := by
  induction l with
  | nil => intro i acc j h _; exact h
  | cons b t ih =>
    intro i acc j h hnk
    rw [exc_sweep_go]
    by_cases hb : excHit excSet b
    · rw [if_pos hb]
      refine ih (i + 1) _ j ?_ ?_
      · intro hmem
        rcases List.mem_append.mp hmem with hmem | hmem
        · exact h hmem
        · have hij : i ≠ j := by
            have := hnk 0 b rfl hb
            omega
          rcases List.mem_cons.mp hmem with heq | hmem
          · exact hij (Ev.berror.inj heq).symm
          · simp at hmem
      · intro k c hget hhit
        have := hnk (k + 1) c hget hhit
        omega
    · rw [if_neg hb]
      refine ih (i + 1) acc j h ?_
      intro k c hget hhit
      have := hnk (k + 1) c hget hhit
      omega

theorem exc_sweep_go_preserve (excSet : Finset Nat) (l : List Block) :
    ∀ i acc x, x ∈ acc.2 →
      (∀ k c, l.get? k = some c → excHit excSet c → x ≠ c.out ∧ x ≠ c.err) →
      x ∈ (exc_sweep_go excSet l i acc).2 := by
  induction l with
  | nil => intro i acc x h _; exact h
  | cons b t ih =>
    intro i acc x h hne
    rw [exc_sweep_go]
    by_cases hb : excHit excSet b
    · rw [if_pos hb]
      obtain ⟨hno, hne'⟩ := hne 0 b rfl hb
      refine ih (i + 1) _ x ?_ ?_
      · exact Finset.mem_erase.mpr ⟨hne', Finset.mem_erase.mpr ⟨hno, h⟩⟩
      · intro k c hget hhit; exact hne (k + 1) c hget hhit
    · rw [if_neg hb]
      refine ih (i + 1) acc x h ?_
      intro k c hget hhit; exact hne (k + 1) c hget hhit

/-! #### Properties of the loop state -/

theorem after_select_rfds (cfg : Cfg) (blocks : List Block) (rfds : Finset Nat)
    (inp : SelInput) (avail : Int) (evs0 : List Ev) :
    (after_select cfg blocks rfds inp avail evs0).2.1 = rfds := by
  rw [after_select]
  by_cases h : cfg.sigfd ∈ inp.readSet
  · rw [if_pos h]
    cases inp.sigRead with
    | short => rfl
    | full s =>
      by_cases hb : (dispatch_sig cfg s).2
      · simp [hb]
      · by_cases ha : avail - 1 = 0 <;> simp [hb, ha]
  · rw [if_neg h]
    by_cases ha : avail = 0 <;> simp [ha]

theorem step_subset (cfg : Cfg) (blocks : List Block) (rfds : Finset Nat)
    (inp : SelInput) : (step cfg blocks rfds inp).2.1 ⊆ rfds := by
  rw [step]
  by_cases h1 : inp.ret = -1
  · rw [if_pos h1]
    by_cases h2 : inp.eintr
    · rw [if_pos h2]
    · rw [if_neg h2]
      rw [after_select_rfds]
      exact exc_sweep_go_subset inp.excSet blocks 0 ([Ev.errorLog "select"], rfds)
  · rw [if_neg h1]
    by_cases h2 : inp.ret = 0
    · rw [if_pos h2]
    · rw [if_neg h2]
      rw [after_select_rfds]

theorem run_subset (cfg : Cfg) (blocks : List Block) :
    ∀ (trace : List SelInput) (rfds : Finset Nat),
      (run cfg blocks rfds trace).2.1 ⊆ rfds := by
  intro trace
  induction trace with
  | nil => intro rfds; exact Finset.Subset.refl _
  | cons inp rest ih =>
    intro rfds
    rw [run]
    cases hst : (step cfg blocks rfds inp).2.2 with
    | some e =>
      simp only [hst]
      exact step_subset cfg blocks rfds inp
    | none =>
      simp only [hst]
      exact Finset.Subset.trans (ih _) (step_subset cfg blocks rfds inp)

theorem initWaitSet_mem_aux (l : List Block) :
    ∀ (s : Finset Nat) (x : Nat),
      x ∈ l.foldl
          (fun s b =>
            if b.interval = INTER_BLOCKING then insert b.err (insert b.out s) else s) s
        ↔ x ∈ s ∨ ∃ b ∈ l, b.interval = INTER_BLOCKING ∧ (x = b.out ∨ x = b.err) := by
  induction l with
  | nil => intro s x; simp
  | cons b t ih =>
    intro s x
    rw [List.foldl_cons]
    by_cases hb : b.interval = INTER_BLOCKING
    · rw [if_pos hb, ih]
      constructor
      · rintro (hx | ⟨c, hc, h1, h2⟩)
        · rcases Finset.mem_insert.mp hx with rfl | hx
          · exact Or.inr ⟨b, List.mem_cons_self b t, hb, Or.inr rfl⟩
          · rcases Finset.mem_insert.mp hx with rfl | hx
            · exact Or.inr ⟨b, List.mem_cons_self b t, hb, Or.inl rfl⟩
            · exact Or.inl hx
        · exact Or.inr ⟨c, List.mem_cons_of_mem b hc, h1, h2⟩
      · rintro (hx | ⟨c, hc, h1, h2⟩)
        · exact Or.inl (Finset.mem_insert_of_mem (Finset.mem_insert_of_mem hx))
        · rcases List.mem_cons.mp hc with rfl | hc
          · rcases h2 with rfl | rfl
            · exact Or.inl (Finset.mem_insert_of_mem (Finset.mem_insert_self _ _))
            · exact Or.inl (Finset.mem_insert_self _ _)
          · exact Or.inr ⟨c, hc, h1, h2⟩
    · rw [if_neg hb, ih]
      constructor
      · rintro (hx | ⟨c, hc, h1, h2⟩)
        · exact Or.inl hx
        · exact Or.inr ⟨c, List.mem_cons_of_mem b hc, h1, h2⟩
      · rintro (hx | ⟨c, hc, h1, h2⟩)
        · exact Or.inl hx
        · rcases List.mem_cons.mp hc with rfl | hc
          · exact absurd h1 hb
          · exact Or.inr ⟨c, hc, h1, h2⟩

/-- C9: the wait set built at reactor start contains exactly the
signalfd plus the out and err descriptors of every block whose interval
is the continuous-streaming sentinel; blocks with any other interval
(one-shot or plain positive) contribute no descriptor, and the loop
never adds a descriptor afterwards (the wait set only ever shrinks). -/
theorem initWaitSet_spec (cfg : Cfg) (blocks : List Block) :
    (∀ fd, fd ∈ initWaitSet cfg blocks ↔
       fd = cfg.sigfd
       ∨ ∃ b ∈ blocks, b.interval = INTER_BLOCKING ∧ (fd = b.out ∨ fd = b.err))
    ∧ ∀ trace, (run cfg blocks (initWaitSet cfg blocks) trace).2.1
        ⊆ initWaitSet cfg blocks := by
  constructor
  · intro fd
    rw [initWaitSet, initWaitSet_mem_aux]
    simp
  · intro trace
    exact run_subset cfg blocks trace _

/-- Witness for C9: a continuous block's descriptors are in the wait
set of a one-block bar. -/
theorem initWaitSet_spec_witness :
    (5 : Nat) ∈ initWaitSet ⟨3, 34, 64⟩ [⟨INTER_BLOCKING, 5, 6⟩] :=
  ((initWaitSet_spec ⟨3, 34, 64⟩ [⟨INTER_BLOCKING, 5, 6⟩]).1 5).mpr
    (Or.inr ⟨⟨INTER_BLOCKING, 5, 6⟩, by simp, rfl, Or.inl rfl⟩)

theorem reap_loop_replicate (n : Nat) :
    reap_loop n = List.replicate n Ev.reapChild := by
  induction n with
  | zero => rfl
  | succ m ih => rw [reap_loop, ih, List.replicate_succ]

/-- C2: on every exit from the reactor loop — termination signal, short
signal-record read, or zero-ready wait — `sched_start` proceeds to the
shutdown sequence: it unblocks the signal set and then reaps children
until none remains; for any number of outstanding children, all of them
are reaped (one successful `waitpid` each) before `sched_start`
returns, and the unblocking precedes every reap. -/
theorem sched_start_shutdown (cfg : Cfg) (blocks : List Block)
    (trace : List SelInput) (children : Nat) (reason : ExitReason)
    (h : (run cfg blocks (initWaitSet cfg blocks) trace).2.2 = some reason) :
    (reason = .term ∨ reason = .shortRead ∨ reason = .zeroReady)
    ∧ sched_start cfg blocks trace children
        = [Ev.render, Ev.pollTimed]
          ++ (run cfg blocks (initWaitSet cfg blocks) trace).1
          ++ (Ev.unblockSignals :: reap_loop children)
    ∧ reap_loop children = List.replicate children Ev.reapChild
    ∧ List.count Ev.reapChild (reap_loop children) = children := by
  refine ⟨?_, ?_, reap_loop_replicate children, ?_⟩
  · cases reason
    · exact Or.inl rfl
    · exact Or.inr (Or.inl rfl)
    · exact Or.inr (Or.inr rfl)
  · rw [sched_start]
    simp only [h]
  · rw [reap_loop_replicate]
    exact List.count_replicate_self _ _

/-- Witness for C2: a one-iteration trace delivering SIGTERM, with two
outstanding children. -/
theorem sched_start_shutdown_witness :
    sched_start ⟨3, 34, 64⟩ [] [⟨1, false, {3}, ∅, SigRead.full 15⟩] 2
      = [Ev.render, Ev.pollTimed]
        ++ (run ⟨3, 34, 64⟩ [] (initWaitSet ⟨3, 34, 64⟩ [])
              [⟨1, false, {3}, ∅, SigRead.full 15⟩]).1
        ++ (Ev.unblockSignals :: reap_loop 2) :=
  (sched_start_shutdown ⟨3, 34, 64⟩ [] [⟨1, false, {3}, ∅, SigRead.full 15⟩] 2
    ExitReason.term (by decide)).2.1

/-- C6: a read of the signal-event descriptor that does not return a
full record, and a zero-ready `select` result, each terminate the loop
with a diagnostic; and whenever the loop exits, `sched_start` proceeds
to the shutdown sequence (unblocking then reaping) instead of aborting
abruptly. -/
theorem step_fatal (cfg : Cfg) (blocks : List Block) (rfds : Finset Nat)
    (inp : SelInput) :
    (inp.ret = 0 →
       step cfg blocks rfds inp
         = ([Ev.errorLog "should not happen: select returned 0 (timeout)"],
            rfds, some .zeroReady))
    ∧ (0 < inp.ret → cfg.sigfd ∈ inp.readSet → inp.sigRead = .short →
       step cfg blocks rfds inp = ([Ev.errorLog "read"], rfds, some .shortRead))
    ∧ (∀ trace children reason,
        (run cfg blocks (initWaitSet cfg blocks) trace).2.2 = some reason →
        ∃ evs, sched_start cfg blocks trace children
          = evs ++ (Ev.unblockSignals :: reap_loop children)) := by
  refine ⟨?_, ?_, ?_⟩
  · intro h
    have h1 : ¬ inp.ret = -1 := by rw [h]; decide
    rw [step, if_neg h1, if_pos h]
  · intro h h2 h3
    have h1 : ¬ inp.ret = -1 := by omega
    have h0 : ¬ inp.ret = 0 := by omega
    rw [step, if_neg h1, if_neg h0, after_select, if_pos h2, h3]
    rfl
  · intro trace children reason h
    rw [sched_start]
    simp only [h]
    exact ⟨[Ev.render, Ev.pollTimed]
      ++ (run cfg blocks (initWaitSet cfg blocks) trace).1, by
        rw [List.append_assoc]⟩

/-- Witness for C6: a zero-ready wait, a short signalfd read, and the
shutdown following a SIGINT exit. -/
theorem step_fatal_witness :
    step ⟨3, 34, 64⟩ [] {3} ⟨0, false, ∅, ∅, SigRead.short⟩
      = ([Ev.errorLog "should not happen: select returned 0 (timeout)"],
         {3}, some .zeroReady)
    ∧ step ⟨3, 34, 64⟩ [] {3} ⟨1, false, {3}, ∅, SigRead.short⟩
      = ([Ev.errorLog "read"], {3}, some .shortRead)
    ∧ ∃ evs, sched_start ⟨3, 34, 64⟩ [] [⟨1, false, {3}, ∅, SigRead.full 2⟩] 1
        = evs ++ (Ev.unblockSignals :: reap_loop 1) :=
  ⟨(step_fatal ⟨3, 34, 64⟩ [] {3} ⟨0, false, ∅, ∅, SigRead.short⟩).1 rfl,
   (step_fatal ⟨3, 34, 64⟩ [] {3} ⟨1, false, {3}, ∅, SigRead.short⟩).2.1
     (by decide) (by decide) rfl,
   (step_fatal ⟨3, 34, 64⟩ [] {3} ⟨1, false, {3}, ∅, SigRead.full 2⟩).2.2
     [⟨1, false, {3}, ∅, SigRead.full 2⟩] 1 ExitReason.term (by decide)⟩

/-! #### Signal dispatch lemmas -/

theorem dispatch_sig_chld (cfg : Cfg) :
    dispatch_sig cfg SIGCHLD = ([Ev.pollExited, Ev.render], false) := by
  rw [dispatch_sig]
  rw [if_neg (by simp only [SIGCHLD, SIGTERM, SIGINT]; omega)]
  rw [if_neg (by simp only [SIGCHLD, SIGALRM]; omega)]
  rw [if_pos rfl]

theorem dispatch_sig_alrm (cfg : Cfg) :
    dispatch_sig cfg SIGALRM = ([Ev.pollOutdated], false) := by
  rw [dispatch_sig]
  rw [if_neg (by simp only [SIGALRM, SIGTERM, SIGINT]; omega)]
  rw [if_pos rfl]

theorem dispatch_sig_rt (cfg : Cfg) (s : Nat) (h29 : 29 < cfg.rtmin)
    (h1 : cfg.rtmin < s) (h2 : s ≤ cfg.rtmax) :
    dispatch_sig cfg s = ([Ev.pollSignaled (s - cfg.rtmin)], false) := by
  have hs : 29 < s := Nat.lt_trans h29 h1
  rw [dispatch_sig]
  rw [if_neg (by simp only [SIGTERM, SIGINT]; omega)]
  rw [if_neg (by simp only [SIGALRM]; omega)]
  rw [if_neg (by simp only [SIGCHLD]; omega)]
  rw [if_neg (by simp only [SIGIOn]; omega)]
  rw [if_pos ⟨h1, h2⟩]

theorem dispatch_sig_base (cfg : Cfg) (h29 : 29 < cfg.rtmin) :
    dispatch_sig cfg cfg.rtmin = ([Ev.debugUnhandled cfg.rtmin], false) := by
  rw [dispatch_sig]
  rw [if_neg (by simp only [SIGTERM, SIGINT]; omega)]
  rw [if_neg (by simp only [SIGALRM]; omega)]
  rw [if_neg (by simp only [SIGCHLD]; omega)]
  rw [if_neg (by simp only [SIGIOn]; omega)]
  rw [if_neg (by omega)]
  rw [if_neg (by simp only [SIGUSR1, SIGUSR2]; omega)]

theorem dispatch_sig_no_rt (cfg : Cfg) (s : Nat)
    (h : ¬ (cfg.rtmin < s ∧ s ≤ cfg.rtmax)) :
    ∀ k, Ev.pollSignaled k ∉ (dispatch_sig cfg s).1 := by
  intro k
  rw [dispatch_sig]
  by_cases h1 : s = SIGTERM ∨ s = SIGINT
  · rw [if_pos h1]; simp
  · rw [if_neg h1]
    by_cases h2 : s = SIGALRM
    · rw [if_pos h2]; simp
    · rw [if_neg h2]
      by_cases h3 : s = SIGCHLD
      · rw [if_pos h3]; simp
      · rw [if_neg h3]
        by_cases h4 : s = SIGIOn
        · rw [if_pos h4]; simp
        · rw [if_neg h4, if_neg h]
          by_cases h5 : s = SIGUSR1 ∨ s = SIGUSR2
          · rw [if_pos h5]; simp
          · rw [if_neg h5]; simp

/-- One iteration with `select` returning exactly 1 and the signalfd
readable with a full record: the signal is dispatched and — since no
other descriptor is actionable — the data sweep is skipped. -/
theorem step_one_sig (cfg : Cfg) (blocks : List Block) (rfds : Finset Nat)
    (inp : SelInput) (s : Nat) (hret : inp.ret = 1)
    (hfd : cfg.sigfd ∈ inp.readSet) (hs : inp.sigRead = SigRead.full s) :
    step cfg blocks rfds inp
      = ((dispatch_sig cfg s).1, rfds,
         if (dispatch_sig cfg s).2 then some ExitReason.term else none) := by
  rw [step, hret]
  rw [if_neg (by decide), if_neg (by decide)]
  rw [after_select, if_pos hfd, hs]
  by_cases hd : (dispatch_sig cfg s).2
  · simp [hd]
  · norm_num [hd]

/-- One iteration with `select` reporting at least two actionable
descriptors and the signalfd readable with a full, non-terminating
record: the signal is dispatched and then the data sweep runs. -/
theorem step_sig_sweep (cfg : Cfg) (blocks : List Block) (rfds : Finset Nat)
    (inp : SelInput) (s : Nat) (hret : 2 ≤ inp.ret)
    (hfd : cfg.sigfd ∈ inp.readSet) (hs : inp.sigRead = SigRead.full s)
    (hd : (dispatch_sig cfg s).2 = false) :
    step cfg blocks rfds inp
      = ((dispatch_sig cfg s).1 ++ data_sweep blocks inp.readSet, rfds, none) := by
  have h1 : ¬ inp.ret = -1 := by omega
  have h0 : ¬ inp.ret = 0 := by omega
  have ha : ¬ (inp.ret - 1 = 0) := by omega
  rw [step, if_neg h1, if_neg h0, after_select, if_pos hfd, hs]
  simp [hd, ha]

/-- C5: a signal record with number strictly between SIGRTMIN and
SIGRTMAX (inclusive above) dispatches the real-time block notification
with index (signal − SIGRTMIN); a signal outside that range never
produces a block notification, and the reserved base signal SIGRTMIN
itself is only logged as unhandled.  (The hypothesis 29 < rtmin records
that the platform real-time range lies above the named signals, as on
Linux where SIGRTMIN is 34.) -/
theorem rt_signal_dispatch (cfg : Cfg) (blocks : List Block) (rfds : Finset Nat)
    (inp : SelInput) (s : Nat) (h29 : 29 < cfg.rtmin) (hret : inp.ret = 1)
    (hfd : cfg.sigfd ∈ inp.readSet) (hs : inp.sigRead = SigRead.full s) :
    (cfg.rtmin < s → s ≤ cfg.rtmax →
       step cfg blocks rfds inp
         = ([Ev.pollSignaled (s - cfg.rtmin)], rfds, none))
    ∧ (¬ (cfg.rtmin < s ∧ s ≤ cfg.rtmax) →
       ∀ k, Ev.pollSignaled k ∉ (step cfg blocks rfds inp).1)
    ∧ (s = cfg.rtmin →
       step cfg blocks rfds inp = ([Ev.debugUnhandled s], rfds, none)) := by
  refine ⟨?_, ?_, ?_⟩
  · intro h1 h2
    rw [step_one_sig cfg blocks rfds inp s hret hfd hs,
      dispatch_sig_rt cfg s h29 h1 h2]
    rfl
  · intro h k
    rw [step_one_sig cfg blocks rfds inp s hret hfd hs]
    exact dispatch_sig_no_rt cfg s h k
  · intro h
    subst h
    rw [step_one_sig cfg blocks rfds inp cfg.rtmin hret hfd hs,
      dispatch_sig_base cfg h29]
    rfl

/-- Witness for C5: signal 36 with SIGRTMIN 34 dispatches block index
2; signal 34 (the base) is ignored. -/
theorem rt_signal_dispatch_witness :
    step ⟨3, 34, 64⟩ [] {3} ⟨1, false, {3}, ∅, SigRead.full 36⟩
      = ([Ev.pollSignaled 2], {3}, none)
    ∧ step ⟨3, 34, 64⟩ [] {3} ⟨1, false, {3}, ∅, SigRead.full 34⟩
      = ([Ev.debugUnhandled 34], {3}, none) :=
  ⟨(rt_signal_dispatch ⟨3, 34, 64⟩ [] {3} ⟨1, false, {3}, ∅, SigRead.full 36⟩ 36
      (by decide) rfl (by decide) rfl).1 (by decide) (by decide),
   (rt_signal_dispatch ⟨3, 34, 64⟩ [] {3} ⟨1, false, {3}, ∅, SigRead.full 34⟩ 34
      (by decide) rfl (by decide) rfl).2.2 rfl⟩

/-- C4: in an iteration whose `select` reported the signalfd plus other
descriptors ready and whose signal record is SIGCHLD, the dispatch
(one `bar_poll_exited` and exactly one render, however many children
exited in the batch) precedes the data sweep; the sweep contributes at
most one render covering all ready blocks; and when some block is
ready, both renders occur — the child-exit one first, the sweep one
last. -/
theorem chld_render_order (cfg : Cfg) (blocks : List Block) (rfds : Finset Nat)
    (inp : SelInput) (hret : 2 ≤ inp.ret) (hfd : cfg.sigfd ∈ inp.readSet)
    (hs : inp.sigRead = SigRead.full SIGCHLD) :
    (step cfg blocks rfds inp).1
      = Ev.pollExited :: Ev.render :: data_sweep blocks inp.readSet
    ∧ (step cfg blocks rfds inp).2.2 = none
    ∧ List.count Ev.render (data_sweep blocks inp.readSet) ≤ 1
    ∧ ((∃ b ∈ blocks, b.interval = INTER_BLOCKING
          ∧ block_ready inp.readSet b ≠ 0) →
        List.count Ev.render (step cfg blocks rfds inp).1 = 2
        ∧ ∃ evs, data_sweep blocks inp.readSet = evs ++ [Ev.render]
            ∧ Ev.render ∉ evs) := by
  have hstep := step_sig_sweep cfg blocks rfds inp SIGCHLD hret hfd hs
    (by rw [dispatch_sig_chld])
  rw [dispatch_sig_chld] at hstep
  refine ⟨?_, ?_, ?_, ?_⟩
  · rw [hstep]; rfl
  · rw [hstep]
  · rw [data_sweep_render_count]
    by_cases hflag : (sweep_go inp.readSet blocks 0 ([], false)).2
    · rw [if_pos hflag]
    · rw [if_neg hflag]; omega
  · intro hready
    have hflag : (sweep_go inp.readSet blocks 0 ([], false)).2 = true :=
      (sweep_go_upd_iff inp.readSet blocks 0 []).mpr hready
    constructor
    · rw [hstep]
      have hcnt : List.count Ev.render (data_sweep blocks inp.readSet) = 1 := by
        rw [data_sweep_render_count, if_pos hflag]
      simp only [List.count_cons, List.count_append, hcnt]
      decide
    · refine ⟨(sweep_go inp.readSet blocks 0 ([], false)).1, ?_, ?_⟩
      · rw [data_sweep, if_pos hflag]
      · exact sweep_go_no_render inp.readSet blocks 0 ([], false) (by simp)

/-- Witness for C4: SIGCHLD plus a ready continuous block — the events
are child-poll, render, data consumption, render, in that order. -/
theorem chld_render_order_witness :
    (step ⟨3, 34, 64⟩ [⟨INTER_BLOCKING, 5, 6⟩] {3, 5, 6}
        ⟨2, false, {3, 5}, ∅, SigRead.full 17⟩).1
      = Ev.pollExited :: Ev.render
          :: data_sweep [⟨INTER_BLOCKING, 5, 6⟩] {3, 5}
    ∧ List.count Ev.render
        (step ⟨3, 34, 64⟩ [⟨INTER_BLOCKING, 5, 6⟩] {3, 5, 6}
          ⟨2, false, {3, 5}, ∅, SigRead.full 17⟩).1 = 2 :=
  ⟨(chld_render_order ⟨3, 34, 64⟩ [⟨INTER_BLOCKING, 5, 6⟩] {3, 5, 6}
      ⟨2, false, {3, 5}, ∅, SigRead.full 17⟩ (by decide) (by decide) rfl).1,
   ((chld_render_order ⟨3, 34, 64⟩ [⟨INTER_BLOCKING, 5, 6⟩] {3, 5, 6}
      ⟨2, false, {3, 5}, ∅, SigRead.full 17⟩ (by decide) (by decide) rfl).2.2.2
      ⟨⟨INTER_BLOCKING, 5, 6⟩, by simp, rfl, by decide⟩).1⟩

/-! #### The error path of the loop -/

theorem step_err (cfg : Cfg) (blocks : List Block) (rfds : Finset Nat)
    (inp : SelInput) (hret : inp.ret = -1) (hei : inp.eintr = false) :
    step cfg blocks rfds inp
      = after_select cfg blocks
          (exc_sweep_go inp.excSet blocks 0 ([Ev.errorLog "select"], rfds)).2
          inp (-1)
          (exc_sweep_go inp.excSet blocks 0 ([Ev.errorLog "select"], rfds)).1 := by
  rw [step, if_pos hret, if_neg (by simp [hei])]

theorem after_select_evs (cfg : Cfg) (blocks : List Block) (rfds : Finset Nat)
    (inp : SelInput) (avail : Int) (evs0 : List Ev) :
    ∃ t, (after_select cfg blocks rfds inp avail evs0).1 = evs0 ++ t
      ∧ (∀ e ∈ t, e = Ev.errorLog "read"
          ∨ (∃ s, inp.sigRead = SigRead.full s ∧ e ∈ (dispatch_sig cfg s).1)
          ∨ e ∈ data_sweep blocks inp.readSet) := by
  rw [after_select]
  by_cases h : cfg.sigfd ∈ inp.readSet
  · rw [if_pos h]
    cases hs : inp.sigRead with
    | short =>
      refine ⟨[Ev.errorLog "read"], rfl, ?_⟩
      intro e he
      rcases List.mem_cons.mp he with rfl | he
      · exact Or.inl rfl
      · exact absurd he (by simp)
    | full s =>
      by_cases hd : (dispatch_sig cfg s).2
      · refine ⟨(dispatch_sig cfg s).1, by simp [hd], ?_⟩
        intro e he
        exact Or.inr (Or.inl ⟨s, rfl, he⟩)
      · by_cases ha : avail - 1 = 0
        · refine ⟨(dispatch_sig cfg s).1, by simp [hd, ha], ?_⟩
          intro e he
          exact Or.inr (Or.inl ⟨s, rfl, he⟩)
        · refine ⟨(dispatch_sig cfg s).1 ++ data_sweep blocks inp.readSet,
            by simp [hd, ha], ?_⟩
          intro e he
          rcases List.mem_append.mp he with he | he
          · exact Or.inr (Or.inl ⟨s, rfl, he⟩)
          · exact Or.inr (Or.inr he)
  · rw [if_neg h]
    by_cases ha : avail = 0
    · exact ⟨[], by simp [ha], by simp⟩
    · refine ⟨data_sweep blocks inp.readSet, by simp [ha], ?_⟩
      intro e he
      exact Or.inr (Or.inr he)

theorem dispatch_sig_no_berror (cfg : Cfg) (s j : Nat) :
    Ev.berror j ∉ (dispatch_sig cfg s).1 := by
  rw [dispatch_sig]
  by_cases h1 : s = SIGTERM ∨ s = SIGINT
  · rw [if_pos h1]; simp
  · rw [if_neg h1]
    by_cases h2 : s = SIGALRM
    · rw [if_pos h2]; simp
    · rw [if_neg h2]
      by_cases h3 : s = SIGCHLD
      · rw [if_pos h3]; simp
      · rw [if_neg h3]
        by_cases h4 : s = SIGIOn
        · rw [if_pos h4]; simp
        · rw [if_neg h4]
          by_cases h5 : cfg.rtmin < s ∧ s ≤ cfg.rtmax
          · rw [if_pos h5]; simp
          · rw [if_neg h5]
            by_cases h6 : s = SIGUSR1 ∨ s = SIGUSR2
            · rw [if_pos h6]; simp
            · rw [if_neg h6]; simp

theorem sweep_go_shape (readSet : Finset Nat) (l : List Block) :
    ∀ i acc e, e ∈ (sweep_go readSet l i acc).1 →
      e ∈ acc.1 ∨ ∃ j r, e = Ev.readStd j false r := by
  induction l with
  | nil => intro i acc e he; exact Or.inl he
  | cons b t ih =>
    intro i acc e he
    rw [sweep_go] at he
    by_cases hb : b.interval = INTER_BLOCKING
    · rw [if_pos hb] at he
      by_cases hr : block_ready readSet b ≠ 0
      · rw [if_pos hr] at he
        rcases ih (i + 1) _ e he with hmem | hshape
        · rcases List.mem_append.mp hmem with hmem | hmem
          · exact Or.inl hmem
          · rcases List.mem_cons.mp hmem with rfl | hmem
            · exact Or.inr ⟨i, block_ready readSet b, rfl⟩
            · exact absurd hmem (by simp)
        · exact Or.inr hshape
      · rw [if_neg hr] at he; exact ih (i + 1) acc e he
    · rw [if_neg hb] at he; exact ih (i + 1) acc e he

theorem data_sweep_no_berror (blocks : List Block) (readSet : Finset Nat)
    (j : Nat) : Ev.berror j ∉ data_sweep blocks readSet := by
  rw [data_sweep]
  intro hmem
  by_cases hf : (sweep_go readSet blocks 0 ([], false)).2
  · rw [if_pos hf] at hmem
    rcases List.mem_append.mp hmem with hmem | hmem
    · rcases sweep_go_shape readSet blocks 0 ([], false) _ hmem with h | ⟨k, r, h⟩
      · exact absurd h (by simp)
      · exact absurd h (by simp)
    · exact absurd hmem (by simp)
  · rw [if_neg hf] at hmem
    rcases sweep_go_shape readSet blocks 0 ([], false) _ hmem with h | ⟨k, r, h⟩
    · exact absurd h (by simp)
    · exact absurd h (by simp)

theorem data_sweep_mem (blocks : List Block) (readSet : Finset Nat) (k : Nat)
    (b : Block) (hget : blocks.get? k = some b)
    (hbl : b.interval = INTER_BLOCKING) (hr : block_ready readSet b ≠ 0) :
    Ev.readStd k false (block_ready readSet b) ∈ data_sweep blocks readSet := by
  have h := sweep_go_mem readSet blocks k 0 ([], false) b hget hbl hr
  rw [data_sweep]
  by_cases hf : (sweep_go readSet blocks 0 ([], false)).2
  · rw [if_pos hf]
    exact List.mem_append_left _ (by simpa using h.1)
  · rw [if_neg hf]
    simpa using h.1

/-- C3: when `select` fails with a non-interruption error and a
continuous block's descriptor is in the exception set, that block gets
a diagnostic, its stream is finalized at end-of-file, both its
descriptors leave the wait set and are never re-added for the rest of
the run; blocks without an excepted descriptor get no diagnostic, and
any descriptor not belonging to an excepted block stays in the wait
set, so processing of the other blocks is unaffected in this and all
later iterations. -/
theorem broken_stream_isolation (cfg : Cfg) (blocks : List Block)
    (rfds : Finset Nat) (inp : SelInput) (i : Nat) (b : Block)
    (hret : inp.ret = -1) (hei : inp.eintr = false)
    (hb : blocks.get? i = some b) (hhit : excHit inp.excSet b) :
    Ev.berror i ∈ (step cfg blocks rfds inp).1
    ∧ Ev.readStd i true 0 ∈ (step cfg blocks rfds inp).1
    ∧ b.out ∉ (step cfg blocks rfds inp).2.1
    ∧ b.err ∉ (step cfg blocks rfds inp).2.1
    ∧ (∀ rest, b.out ∉ (run cfg blocks (step cfg blocks rfds inp).2.1 rest).2.1
        ∧ b.err ∉ (run cfg blocks (step cfg blocks rfds inp).2.1 rest).2.1)
    ∧ (∀ j c, blocks.get? j = some c → ¬ excHit inp.excSet c →
        Ev.berror j ∉ (step cfg blocks rfds inp).1)
    ∧ (∀ x, x ∈ rfds →
        (∀ k c, blocks.get? k = some c → excHit inp.excSet c →
          x ≠ c.out ∧ x ≠ c.err) →
        x ∈ (step cfg blocks rfds inp).2.1) := by
  have hhitlem := exc_sweep_go_hit inp.excSet blocks i 0
    ([Ev.errorLog "select"], rfds) b hb hhit
  rw [step_err cfg blocks rfds inp hret hei]
  obtain ⟨t, ht, htshape⟩ := after_select_evs cfg blocks
    (exc_sweep_go inp.excSet blocks 0 ([Ev.errorLog "select"], rfds)).2 inp (-1)
    (exc_sweep_go inp.excSet blocks 0 ([Ev.errorLog "select"], rfds)).1
  have hrfds := after_select_rfds cfg blocks
    (exc_sweep_go inp.excSet blocks 0 ([Ev.errorLog "select"], rfds)).2 inp (-1)
    (exc_sweep_go inp.excSet blocks 0 ([Ev.errorLog "select"], rfds)).1
  refine ⟨?_, ?_, ?_, ?_, ?_, ?_, ?_⟩
  · rw [ht]
    exact List.mem_append_left _ (by simpa using hhitlem.1)
  · rw [ht]
    exact List.mem_append_left _ (by simpa using hhitlem.2.1)
  · rw [hrfds]; exact hhitlem.2.2.1
  · rw [hrfds]; exact hhitlem.2.2.2
  · intro rest
    rw [hrfds]
    constructor
    · intro hmem
      exact hhitlem.2.2.1 (run_subset cfg blocks rest _ hmem)
    · intro hmem
      exact hhitlem.2.2.2 (run_subset cfg blocks rest _ hmem)
  · intro j c hc hnohit
    rw [ht]
    intro hmem
    rcases List.mem_append.mp hmem with hmem | hmem
    · refine exc_sweep_go_no_berror inp.excSet blocks 0
        ([Ev.errorLog "select"], rfds) j (by simp) ?_ hmem
      intro k ck hk hhitk
      intro hkj
      rw [Nat.zero_add] at hkj
      subst hkj
      rw [hk] at hc
      exact hnohit (by rwa [Option.some_injective _ hc] at hhitk)
    · rcases htshape _ hmem with h | ⟨s, -, h⟩ | h
      · exact absurd h (by simp)
      · exact dispatch_sig_no_berror cfg s j h
      · exact data_sweep_no_berror blocks inp.readSet j h
  · intro x hx hne
    rw [hrfds]
    refine exc_sweep_go_preserve inp.excSet blocks 0
      ([Ev.errorLog "select"], rfds) x hx ?_
    intro k c hk hhitk
    exact hne k c hk hhitk

/-- Witness for C3: one continuous block whose stdout descriptor is in
the exception set after a failed `select`; it is reported, finalized
and removed; a second continuous block is untouched. -/
theorem broken_stream_isolation_witness :
    Ev.berror 0 ∈ (step ⟨3, 34, 64⟩
        [⟨INTER_BLOCKING, 5, 6⟩, ⟨INTER_BLOCKING, 7, 8⟩] {3, 5, 6, 7, 8}
        ⟨-1, false, ∅, {5}, SigRead.short⟩).1
    ∧ (5 : Nat) ∉ (step ⟨3, 34, 64⟩
        [⟨INTER_BLOCKING, 5, 6⟩, ⟨INTER_BLOCKING, 7, 8⟩] {3, 5, 6, 7, 8}
        ⟨-1, false, ∅, {5}, SigRead.short⟩).2.1
    ∧ (7 : Nat) ∈ (step ⟨3, 34, 64⟩
        [⟨INTER_BLOCKING, 5, 6⟩, ⟨INTER_BLOCKING, 7, 8⟩] {3, 5, 6, 7, 8}
        ⟨-1, false, ∅, {5}, SigRead.short⟩).2.1 := by
  have h := broken_stream_isolation ⟨3, 34, 64⟩
    [⟨INTER_BLOCKING, 5, 6⟩, ⟨INTER_BLOCKING, 7, 8⟩] {3, 5, 6, 7, 8}
    ⟨-1, false, ∅, {5}, SigRead.short⟩ 0 ⟨INTER_BLOCKING, 5, 6⟩
    rfl rfl rfl (by constructor <;> decide)
  refine ⟨h.1, h.2.2.1, ?_⟩
  refine h.2.2.2.2.2.2 7 (by decide) ?_
  intro k c hk hhitk
  have hk2 : k = 0 ∨ k = 1 := by
    by_cases h0 : k = 0
    · exact Or.inl h0
    · by_cases h1 : k = 1
      · exact Or.inr h1
      · exact absurd hk (by
          have : 2 ≤ k := by omega
          rw [List.get?_eq_none.mpr (by simpa using this)]
          simp)
  rcases hk2 with rfl | rfl
  · have : c = ⟨INTER_BLOCKING, 5, 6⟩ := (Option.some_injective _ hk).symm
    subst this
    exact ⟨by decide, by decide⟩
  · have : c = ⟨INTER_BLOCKING, 7, 8⟩ := (Option.some_injective _ hk).symm
    subst this
    rcases hhitk with ⟨-, hmem | hmem⟩ <;> revert hmem <;> decide

/-- C10: after a non-interruption `select` failure the loop does not
restart the wait: the same iteration proceeds to the signalfd check and
to the data sweep, both over the buffers populated before the failed
wait (left equal to the wait set by the kernel), so the very block just
finalized with eof=true also receives a consume call with eof=false,
and the pending signal record is still dispatched. -/
theorem err_iteration_fallthrough (cfg : Cfg) (blocks : List Block)
    (rfds : Finset Nat) (inp : SelInput) (i : Nat) (b : Block)
    (hret : inp.ret = -1) (hei : inp.eintr = false)
    (hread : inp.readSet = rfds) (hexc : inp.excSet = rfds)
    (hsfd : cfg.sigfd ∈ rfds) (hsig : inp.sigRead = SigRead.full SIGALRM)
    (hb : blocks.get? i = some b) (hbl : b.interval = INTER_BLOCKING)
    (hout : b.out ∈ rfds) (herr : b.err ∈ rfds) :
    Ev.readStd i true 0 ∈ (step cfg blocks rfds inp).1
    ∧ Ev.pollOutdated ∈ (step cfg blocks rfds inp).1
    ∧ Ev.readStd i false (block_ready inp.readSet b) ∈ (step cfg blocks rfds inp).1
    ∧ block_ready inp.readSet b ≠ 0
    ∧ b.out ∉ (step cfg blocks rfds inp).2.1
    ∧ b.err ∉ (step cfg blocks rfds inp).2.1 := by
  have hhit : excHit inp.excSet b := ⟨hbl, Or.inl (by rw [hexc]; exact hout)⟩
  have hhitlem := exc_sweep_go_hit inp.excSet blocks i 0
    ([Ev.errorLog "select"], rfds) b hb hhit
  have hbr : block_ready inp.readSet b ≠ 0 := by
    rw [block_ready, hread, if_pos hout, if_pos herr]
    decide
  have hstep : step cfg blocks rfds inp
      = ((exc_sweep_go inp.excSet blocks 0 ([Ev.errorLog "select"], rfds)).1
          ++ [Ev.pollOutdated] ++ data_sweep blocks inp.readSet,
         (exc_sweep_go inp.excSet blocks 0 ([Ev.errorLog "select"], rfds)).2,
         none) := by
    rw [step_err cfg blocks rfds inp hret hei, after_select,
      if_pos (by rw [hread]; exact hsfd), hsig]
    simp [dispatch_sig_alrm]
  rw [hstep]
  refine ⟨?_, ?_, ?_, hbr, ?_, ?_⟩
  · exact List.mem_append_left _
      (List.mem_append_left _ (by simpa using hhitlem.2.1))
  · exact List.mem_append_left _ (List.mem_append_right _ (by simp))
  · exact List.mem_append_right _ (data_sweep_mem blocks inp.readSet i b hb hbl hbr)
  · exact hhitlem.2.2.1
  · exact hhitlem.2.2.2

/-- Witness for C10: a single continuous block, failed `select` with
unmodified buffers — the block is finalized with eof=true yet still
consumed with eof=false in the same iteration. -/
theorem err_iteration_fallthrough_witness :
    Ev.readStd 0 true 0 ∈ (step ⟨3, 34, 64⟩ [⟨INTER_BLOCKING, 5, 6⟩] {3, 5, 6}
        ⟨-1, false, {3, 5, 6}, {3, 5, 6}, SigRead.full 14⟩).1
    ∧ Ev.readStd 0 false
        (block_ready ({3, 5, 6} : Finset Nat) ⟨INTER_BLOCKING, 5, 6⟩)
        ∈ (step ⟨3, 34, 64⟩ [⟨INTER_BLOCKING, 5, 6⟩] {3, 5, 6}
            ⟨-1, false, {3, 5, 6}, {3, 5, 6}, SigRead.full 14⟩).1
    ∧ (5 : Nat) ∉ (step ⟨3, 34, 64⟩ [⟨INTER_BLOCKING, 5, 6⟩] {3, 5, 6}
        ⟨-1, false, {3, 5, 6}, {3, 5, 6}, SigRead.full 14⟩).2.1 := by
  have h := err_iteration_fallthrough ⟨3, 34, 64⟩ [⟨INTER_BLOCKING, 5, 6⟩]
    {3, 5, 6} ⟨-1, false, {3, 5, 6}, {3, 5, 6}, SigRead.full 14⟩ 0
    ⟨INTER_BLOCKING, 5, 6⟩ rfl rfl rfl rfl (by decide) rfl rfl rfl
    (by decide) (by decide)
  exact ⟨h.1, h.2.2.1, h.2.2.2.2.1⟩

end Sched
